import Mathlib

/-!
Shallow embedding of the recipe-store component of the recipes-api service
(`main.go`).  The global slice `recipes` becomes an explicit state parameter
of type `List Recipe`; each HTTP handler becomes a pure function from its
request data and the current collection to its response and the new
collection.  `time.Time` is modelled as a `Nat` instant, and the generated
`xid` of the create handler is passed in as a parameter (the store only ever
uses it as an opaque string).
-/

/-- The `Recipe` struct (`main.go` lines 16–23). -/
structure Recipe where
  ID : String
  Name : String
  Tags : List String
  Ingredients : List String
  Instructions : List String
  PublishedAt : Nat
deriving DecidableEq, BEq, Repr

/-- Go's `strings.EqualFold` on the strings that occur here: two strings are
equal under simple character-wise case folding.  (Modelled as character-wise
`Char.toLower` comparison, which agrees with `strings.EqualFold` on the ASCII
fragment.) -/
def stringEqualFold (s t : String) : Bool :=
  s.toList.map Char.toLower == t.toList.map Char.toLower

/-- The id-scan loop shared by `UpdateRecipeHandler` (lines 93–98) and
`DeleteRecipeHandler` (lines 121–126):

    index := -1
    for i := 0; i < len(recipes); i++ {
        if recipes[i].ID == id {
            index = i
        }
    }

`index` is the accumulator, `i` the loop counter; the remaining list holds
the elements from position `i` on. -/
def scanLoop (recipes : List Recipe) (id : String) (index : Int) (i : Nat) : Int :=
  match recipes with
  | [] => index
  | r :: rest => scanLoop rest id (if r.ID == id then (i : Int) else index) (i + 1)

/-- The value of `index` after the scan loop, starting from `index = -1`,
`i = 0`. -/
def scanIndex (recipes : List Recipe) (id : String) : Int :=
  scanLoop recipes id (-1) 0

/-- `NewRecipeHandler` (lines 50–61), after JSON binding: `recipe` is the
bound payload, `newId` the freshly generated `xid.New().String()`, `now` the
`time.Now()` instant.  Returns the 200 response body and the new collection. -/
def NewRecipeHandler (recipe : Recipe) (newId : String) (now : Nat)
    (recipes : List Recipe) : Recipe × List Recipe :=
  let stored : Recipe :=
    { recipe with ID := newId, PublishedAt := now }
  (stored, recipes ++ [stored])

/-- `ListRecipesHandler` (lines 71–73): returns the collection as is. -/
def ListRecipesHandler (recipes : List Recipe) : List Recipe :=
  recipes

/-- `UpdateRecipeHandler` (lines 85–107), after JSON binding: `id` is the
path parameter, `recipe` the bound replacement payload.  Returns the response
(`.ok` body for 200, `.error` message for the 404 branch) and the collection
after the handler runs; the early `return` of the 404 branch leaves the
collection untouched. -/
def UpdateRecipeHandler (id : String) (recipe : Recipe)
    (recipes : List Recipe) : Except String Recipe × List Recipe :=
  let index := scanIndex recipes id
  if index = -1 then
    (Except.error "Recipe not found", recipes)
  else
    (Except.ok recipe, recipes.set index.toNat recipe)

/-- `DeleteRecipeHandler` (lines 118–134): `id` is the path parameter.
`append(recipes[:index], recipes[index+1:]...)` is `take index ++ drop
(index+1)`. -/
def DeleteRecipeHandler (id : String)
    (recipes : List Recipe) : Except String String × List Recipe :=
  let index := scanIndex recipes id
  if index = -1 then
    (Except.error "Recipe not found", recipes)
  else
    (Except.ok "Recipe has been deleted",
      recipes.take index.toNat ++ recipes.drop (index.toNat + 1))

/-- `SearchRecipesHandler` (lines 144–161): `tag` is the query parameter
(the empty string when absent).  The inner loop sets the `found` flag, the
outer loop appends each found recipe to `listOfRecipes`. -/
def SearchRecipesHandler (tag : String) (recipes : List Recipe) : List Recipe :=
  recipes.foldl
    (fun listOfRecipes r =>
      if r.Tags.foldl
          (fun found t => if stringEqualFold t tag then true else found) false
      then listOfRecipes ++ [r] else listOfRecipes)
    []

/-- `j` is the position of the last element of `l` whose `ID` field is `id`. -/
def IsLastMatch (l : List Recipe) (id : String) (j : Nat) : Prop :=
  ∃ h : j < l.length, (l.get ⟨j, h⟩).ID = id ∧ ∀ r ∈ l.drop (j + 1), r.ID ≠ id

lemma scanLoop_of_forall_ne (id : String) :
    ∀ (l : List Recipe), (∀ r ∈ l, r.ID ≠ id) → ∀ (index : Int) (i : Nat),
      scanLoop l id index i = index := by
  intro l
  induction l with
  | nil => intro _ index i; rfl
  | cons r rest ih =>
      intro hne index i
      have hr : r.ID ≠ id := hne r (by simp)
      have hrest : ∀ x ∈ rest, x.ID ≠ id := fun x hx => hne x (by simp [hx])
      simp only [scanLoop, beq_iff_eq, if_neg hr]
      exact ih hrest index (i + 1)

lemma scanLoop_of_isLastMatch (id : String) :
    ∀ (l : List Recipe) (j : Nat), IsLastMatch l id j →
      ∀ (index : Int) (i : Nat), scanLoop l id index i = (i : Int) + (j : Int) := by
  intro l
  induction l with
  | nil =>
      intro j hj
      obtain ⟨h, _, _⟩ := hj
      exact absurd h (by simp)
  | cons r rest ih =>
      intro j hj index i
      obtain ⟨h, hmatch, hafter⟩ := hj
      cases j with
      | zero =>
          have hr : r.ID = id := by simpa using hmatch
          have hrest : ∀ x ∈ rest, x.ID ≠ id := by
            intro x hx
            exact hafter x (by simpa using hx)
          simp only [scanLoop, beq_iff_eq, if_pos hr]
          rw [scanLoop_of_forall_ne id rest hrest]
          simp
      | succ j' =>
          have h' : j' < rest.length := by
            simpa [Nat.succ_lt_succ_iff] using h
          have hmatch' : (rest.get ⟨j', h'⟩).ID = id := by
            simpa [List.get_eq_getElem] using hmatch
          have hafter' : ∀ x ∈ rest.drop (j' + 1), x.ID ≠ id := by
            intro x hx
            exact hafter x (by simpa [List.drop_succ_cons] using hx)
          have : IsLastMatch rest id j' := ⟨h', hmatch', hafter'⟩
          simp only [scanLoop]
          rw [ih j' this _ (i + 1)]
          push_cast
          ring

lemma scanIndex_of_forall_ne (id : String) (l : List Recipe)
    (h : ∀ r ∈ l, r.ID ≠ id) : scanIndex l id = -1 :=
  scanLoop_of_forall_ne id l h (-1) 0

lemma scanIndex_of_isLastMatch (id : String) (l : List Recipe) (j : Nat)
    (h : IsLastMatch l id j) : scanIndex l id = (j : Int) := by
  have := scanLoop_of_isLastMatch id l j h (-1) 0
  simpa [scanIndex] using this

lemma exists_isLastMatch (id : String) :
    ∀ (l : List Recipe), (∃ r ∈ l, r.ID = id) → ∃ j, IsLastMatch l id j := by
  intro l
  induction l with
  | nil => intro h; simp at h
  | cons r rest ih =>
      intro h
      by_cases hrest : ∃ x ∈ rest, x.ID = id
      · obtain ⟨j', h', hmatch', hafter'⟩ := ih hrest
        refine ⟨j' + 1, by simpa [Nat.succ_lt_succ_iff] using h', ?_, ?_⟩
        · simpa [List.get_eq_getElem] using hmatch'
        · intro x hx
          exact hafter' x (by simpa [List.drop_succ_cons] using hx)
      · have hr : r.ID = id := by
          obtain ⟨x, hx, hxid⟩ := h
          rcases List.mem_cons.mp hx with hx | hx
          · exact hx ▸ hxid
          · exact absurd ⟨x, hx, hxid⟩ hrest
        refine ⟨0, by simp, by simpa using hr, ?_⟩
        intro x hx
        push_neg at hrest
        exact hrest x (by simpa using hx)

lemma found_foldl_eq_any (tag : String) :
    ∀ (ts : List String) (b : Bool),
      ts.foldl (fun found t => if stringEqualFold t tag then true else found) b
        = (b || ts.any fun t => stringEqualFold t tag) := by
  intro ts
  induction ts with
  | nil => intro b; simp
  | cons t rest ih =>
      intro b
      rw [List.foldl_cons, ih]
      by_cases h : stringEqualFold t tag = true
      · simp [h]
      · simp [h]

lemma search_foldl_eq_filter (tag : String) :
    ∀ (l acc : List Recipe),
      l.foldl
        (fun listOfRecipes r =>
          if r.Tags.foldl
              (fun found t => if stringEqualFold t tag then true else found) false
          then listOfRecipes ++ [r] else listOfRecipes) acc
        = acc ++ l.filter fun r => r.Tags.any fun t => stringEqualFold t tag := by
  intro l
  induction l with
  | nil => intro acc; simp
  | cons r rest ih =>
      intro acc
      rw [List.foldl_cons, ih]
      have hf := found_foldl_eq_any tag r.Tags false
      rw [Bool.false_or] at hf
      by_cases h : (r.Tags.any fun t => stringEqualFold t tag) = true
      · rw [List.filter_cons]
        simp only [hf, h, if_true, List.append_assoc, List.singleton_append]
      · rw [List.filter_cons]
        simp only [hf, h, if_false, Bool.false_eq_true]

lemma SearchRecipesHandler_eq_filter (tag : String) (l : List Recipe) :
    SearchRecipesHandler tag l
      = l.filter fun r => r.Tags.any fun t => stringEqualFold t tag := by
  have h := search_foldl_eq_filter tag l []
  simpa [SearchRecipesHandler] using h

/-! Concrete recipes for witnesses and counterexamples. -/

def rA : Recipe := ⟨"A", "pasta", ["Italian", "Quick"], ["flour"], ["mix"], 1⟩

def rB : Recipe := ⟨"B", "taco", ["mexican"], ["corn"], ["fold"], 2⟩

def rC : Recipe := ⟨"C", "cake", ["dessert"], ["sugar"], ["bake"], 3⟩

def rA2 : Recipe := ⟨"A", "pizza", ["Italian"], ["dough"], ["bake"], 4⟩

def pNew : Recipe := ⟨"Z", "replacement", ["new"], [], [], 9⟩

def rEmptyTag : Recipe := ⟨"E", "odd", [""], [], [], 5⟩

/-- C1: in a collection where more than one element has the given id,
`update` selects the last matching element in iteration order as the one to
replace. -/
theorem update_selects_last_match (id : String) (p : Recipe) (l : List Recipe)
    (j : Nat)
    (_hdup : 1 < (l.filter fun r => r.ID == id).length)
    (hj : IsLastMatch l id j) :
    UpdateRecipeHandler id p l = (Except.ok p, l.set j p) := by
  have hs := scanIndex_of_isLastMatch id l j hj
  have hne : scanIndex l id ≠ -1 := by omega
  simp [UpdateRecipeHandler, hs, hne]

theorem update_selects_last_match_witness :
    (1 < (([rA, rB, rA2]).filter fun r => r.ID == "A").length) ∧
    UpdateRecipeHandler "A" pNew [rA, rB, rA2] = (Except.ok pNew, [rA, rB, pNew]) := by
  constructor
  · decide
  · have h := update_selects_last_match "A" pNew [rA, rB, rA2] 2 (by decide)
      (by exact ⟨by decide, rfl, by simp⟩)
    exact h.trans rfl

/-- C2: when the collection contains an element with the given id, `update`
overwrites the entire record at the selected (last-matching) position with the
replacement payload exactly as supplied — including whatever `ID` and
`PublishedAt` the payload carries, which are not reasserted — and returns that
payload as the response body. -/
theorem update_overwrites_with_payload (id : String) (p : Recipe)
    (l : List Recipe) (hex : ∃ r ∈ l, r.ID = id) :
    ∃ j, IsLastMatch l id j ∧
      UpdateRecipeHandler id p l = (Except.ok p, l.set j p) := by
  obtain ⟨j, hj⟩ := exists_isLastMatch id l hex
  refine ⟨j, hj, ?_⟩
  have hs := scanIndex_of_isLastMatch id l j hj
  have hne : scanIndex l id ≠ -1 := by omega
  simp [UpdateRecipeHandler, hs, hne]

theorem update_overwrites_with_payload_witness :
    (∃ r ∈ [rA, rB], r.ID = "B") ∧
    ∃ j, IsLastMatch [rA, rB] "B" j ∧
      UpdateRecipeHandler "B" pNew [rA, rB] = (Except.ok pNew, [rA, rB].set j pNew) :=
  ⟨⟨rB, by simp, rfl⟩, update_overwrites_with_payload "B" pNew [rA, rB] ⟨rB, by simp, rfl⟩⟩

/-- C3: when no element of the collection has the given id, both `update` and
`delete` answer with the `NotFound` error and return the collection exactly as
it was (same length, same elements, same order). -/
theorem notFound_leaves_collection_unmodified (id : String) (p : Recipe)
    (l : List Recipe) (h : ∀ r ∈ l, r.ID ≠ id) :
    UpdateRecipeHandler id p l = (Except.error "Recipe not found", l) ∧
    DeleteRecipeHandler id l = (Except.error "Recipe not found", l) := by
  have hs := scanIndex_of_forall_ne id l h
  constructor
  · simp [UpdateRecipeHandler, hs]
  · simp [DeleteRecipeHandler, hs]

theorem notFound_leaves_collection_unmodified_witness :
    (∀ r ∈ [rA, rB], r.ID ≠ "Z") ∧
    UpdateRecipeHandler "Z" pNew [rA, rB] = (Except.error "Recipe not found", [rA, rB]) ∧
    DeleteRecipeHandler "Z" [rA, rB] = (Except.error "Recipe not found", [rA, rB]) := by
  refine ⟨by simp [rA, rB], ?_, ?_⟩
  · exact (notFound_leaves_collection_unmodified "Z" pNew [rA, rB] (by simp [rA, rB])).1
  · exact (notFound_leaves_collection_unmodified "Z" pNew [rA, rB] (by simp [rA, rB])).2

/-- C4: when the collection contains an element with the given id, `delete`
removes exactly one element — the last matching one in iteration order —
closing the gap, so the remaining elements keep their relative order and the
length drops by one. -/
theorem delete_removes_last_match (id : String) (l : List Recipe) (j : Nat)
    (hj : IsLastMatch l id j) :
    DeleteRecipeHandler id l
      = (Except.ok "Recipe has been deleted", l.take j ++ l.drop (j + 1)) ∧
    (l.take j ++ l.drop (j + 1)).length + 1 = l.length := by
  have hs := scanIndex_of_isLastMatch id l j hj
  have hne : scanIndex l id ≠ -1 := by omega
  obtain ⟨hlt, -, -⟩ := hj
  constructor
  · simp [DeleteRecipeHandler, hs, hne]
  · simp only [List.length_append, List.length_take, List.length_drop]
    omega

theorem delete_removes_last_match_witness :
    IsLastMatch [rA, rB, rC] "B" 1 ∧
    DeleteRecipeHandler "B" [rA, rB, rC]
      = (Except.ok "Recipe has been deleted", [rA, rC]) := by
  constructor
  · exact ⟨by decide, rfl, by simp [rC]⟩
  · have h := delete_removes_last_match "B" [rA, rB, rC] 1
      (by exact ⟨by decide, rfl, by simp [rC]⟩)
    exact h.1.trans rfl

/-- C5: `searchByTag` returns, in original collection order, exactly those
recipes having at least one tag that case-insensitively equals the given tag
string. -/
theorem search_returns_exactly_case_insensitive_matches (tag : String)
    (l : List Recipe) :
    SearchRecipesHandler tag l
      = l.filter fun r => r.Tags.any fun t => stringEqualFold t tag :=
  SearchRecipesHandler_eq_filter tag l

/-- C6: `create` stores the payload under the freshly generated identifier,
stamps `PublishedAt` with the current instant, appends the stored record to
the end of the collection and returns it; the payload's own `ID` and
`PublishedAt` do not appear anywhere in the result, and the operation is
total (no error outcome exists in its type). -/
theorem create_assigns_identity_and_appends (payload : Recipe) (newId : String)
    (now : Nat) (l : List Recipe) :
    NewRecipeHandler payload newId now l
      = (⟨newId, payload.Name, payload.Tags, payload.Ingredients,
          payload.Instructions, now⟩,
         l ++ [⟨newId, payload.Name, payload.Tags, payload.Ingredients,
                payload.Instructions, now⟩]) :=
  rfl

/-- C7 counterexample: on a collection holding a recipe whose tag list
contains the empty string, `searchByTag` with the empty (or absent) tag
returns that recipe, not the empty result the claim requires for every
collection. -/
theorem search_empty_tag_counterexample :
    SearchRecipesHandler "" [rEmptyTag] = [rEmptyTag] ∧
    [rEmptyTag] ≠ ([] : List Recipe) := by
  constructor
  · rfl
  · simp

/-- C7 amended: `searchByTag` gives the empty tag no special case — it is
matched like any other tag, so it selects exactly the recipes carrying an
empty-string tag; on every collection in which no recipe has an empty-string
tag, the empty or absent tag therefore yields an empty result set. -/
theorem search_empty_tag_amended (l : List Recipe)
    (h : ∀ r ∈ l, ∀ t ∈ r.Tags, t ≠ "") :
    SearchRecipesHandler "" l = [] := by
  rw [SearchRecipesHandler_eq_filter]
  rw [List.filter_eq_nil_iff]
  intro r hr
  simp only [Bool.not_eq_true, List.any_eq_false]
  intro t ht
  have hne : t ≠ "" := h r hr t ht
  simp only [stringEqualFold, beq_eq_false_iff_ne, ne_eq]
  intro hmap
  apply hne
  have : t.toList = [] := by
    have h0 : t.toList.map Char.toLower = [] := by simpa using hmap
    exact List.map_eq_nil_iff.mp h0
  have hdata : t.data = "".data := by simpa using this
  exact String.ext hdata

theorem search_empty_tag_amended_witness :
    (∀ r ∈ [rA, rB], ∀ t ∈ r.Tags, t ≠ "") ∧
    SearchRecipesHandler "" [rA, rB] = [] :=
  ⟨by simp [rA, rB], search_empty_tag_amended [rA, rB] (by simp [rA, rB])⟩

/-- C8 counterexample: with two elements sharing id `"A"`, the scan settles on
the *last* match (`scanIndex = 1`, not `0`), and both `update` and `delete`
act on that last element — the collection outcome differs from the one the
first-match reading of the claim requires. -/
theorem scan_first_match_counterexample :
    scanIndex [rA, rA2] "A" = 1 ∧ (1 : Int) ≠ 0 ∧
    (UpdateRecipeHandler "A" pNew [rA, rA2]).2 = [rA, pNew] ∧
    [rA, pNew] ≠ [pNew, rA2] ∧
    (DeleteRecipeHandler "A" [rA, rA2]).2 = [rA] ∧
    [rA] ≠ [rA2] := by
  refine ⟨rfl, by decide, rfl, by decide, rfl, by decide⟩

/-- C8 amended: on a collection with more than one element carrying the given
id, the id scan shared by `update` and `delete` treats the *last* id match
found as authoritative: it yields the position of the last matching element. -/
theorem scan_last_match_authoritative (id : String) (l : List Recipe) (j : Nat)
    (_hdup : 1 < (l.filter fun r => r.ID == id).length)
    (hj : IsLastMatch l id j) :
    scanIndex l id = (j : Int) :=
  scanIndex_of_isLastMatch id l j hj

theorem scan_last_match_authoritative_witness :
    (1 < (([rA, rA2]).filter fun r => r.ID == "A").length) ∧
    scanIndex [rA, rA2] "A" = (1 : Int) :=
  ⟨by decide, scan_last_match_authoritative "A" [rA, rA2] 1 (by decide)
    ⟨by decide, rfl, by simp⟩⟩

/-- C9: no recipe occurrence of the collection is duplicated by the search:
each element contributes at most one entry to the result, even when several
of its tags case-insensitively equal the searched tag. -/
theorem search_each_recipe_at_most_once (tag : String) (l : List Recipe)
    (r : Recipe) :
    (SearchRecipesHandler tag l).count r ≤ l.count r := by
  rw [SearchRecipesHandler_eq_filter]
  exact (List.filter_sublist l).count_le r

/-- C10: a successful `update` keeps the collection length and leaves every
position other than the selected index (the scan result) exactly as it was. -/
theorem update_frame_preserves_rest (id : String) (p : Recipe)
    (l : List Recipe) (hex : ∃ r ∈ l, r.ID = id) :
    ((UpdateRecipeHandler id p l).2).length = l.length ∧
    ∀ k, k ≠ (scanIndex l id).toNat →
      ((UpdateRecipeHandler id p l).2)[k]? = l[k]? := by
  obtain ⟨j, hj⟩ := exists_isLastMatch id l hex
  have hs := scanIndex_of_isLastMatch id l j hj
  have hne : scanIndex l id ≠ -1 := by omega
  have h2 : (UpdateRecipeHandler id p l).2 = l.set j p := by
    simp [UpdateRecipeHandler, hs, hne]
  rw [h2, hs]
  refine ⟨List.length_set l j p, ?_⟩
  intro k hk
  have hjk : j ≠ k := by simpa [Int.toNat_natCast] using (Ne.symm hk)
  exact List.getElem?_set_ne hjk

theorem update_frame_preserves_rest_witness :
    (∃ r ∈ [rA, rB], r.ID = "A") ∧
    ((UpdateRecipeHandler "A" pNew [rA, rB]).2).length = 2 ∧
    ((UpdateRecipeHandler "A" pNew [rA, rB]).2)[1]? = some rB := by
  have h := update_frame_preserves_rest "A" pNew [rA, rB] ⟨rA, by simp, rfl⟩
  refine ⟨⟨rA, by simp, rfl⟩, by simpa using h.1, ?_⟩
  have h1 := h.2 1 (by decide)
  exact h1.trans rfl
